import Mathlib

/-!
Verification of the auto-job-tracker ingestion pipeline (src/main.go).

Strings are modelled as `List Char` (`Str`). Each Lean definition is a
shallow embedding of the Go function of the same name in src/main.go;
external collaborators (the semantic parser, the store reconciler, the
IMAP fetch) are parameters of the pipeline functions.
-/

namespace AutoJobTracker

/-- Strings, modelled as lists of characters. -/
abbrev Str := List Char

/-- Go `strings.ToLower`, character-wise (ASCII). -/
def lowerStr (s : Str) : Str := s.map Char.toLower

/-- Go `strings.Contains s sub`: `sub` occurs as a contiguous substring of `s`. -/
def strContains (s sub : Str) : Bool :=
  sub.isPrefixOf s ||
    match s with
    | [] => false
    | _ :: t => strContains t sub

/-- Keyword `"applied"` (src/main.go line 140). -/
def kwApplied : Str := "applied".data

/-- Keyword `"application"` (src/main.go line 141). -/
def kwApplication : Str := "application".data

/-- Keyword `"thanks for applying"` (src/main.go line 142). -/
def kwThanksForApplying : Str := "thanks for applying".data

/-- Keyword `"thanks from"` (src/main.go line 143). -/
def kwThanksFrom : Str := "thanks from".data

/-- Keyword `"follow-up"` (src/main.go line 144). -/
def kwFollowUp : Str := "follow-up".data

/-- Keyword `"update"` (src/main.go line 145). -/
def kwUpdate : Str := "update".data

/-- Keyword `"recruiting"` (src/main.go line 146). -/
def kwRecruiting : Str := "recruiting".data

/-- Keyword `"thank you for applying"` (src/main.go line 147). -/
def kwThankYouForApplying : Str := "thank you for applying".data

/-- Go `isJobEmail` (src/main.go lines 139-148): an or-chain of
`strings.Contains` checks against the already-lowercased subject. -/
def isJobEmail (subject : Str) : Bool :=
  strContains subject kwApplied ||
  strContains subject kwApplication ||
  strContains subject kwThanksForApplying ||
  strContains subject kwThanksFrom ||
  strContains subject kwFollowUp ||
  strContains subject kwUpdate ||
  strContains subject kwRecruiting ||
  strContains subject kwThankYouForApplying

/-- The subject filter as applied by the pipeline: main lowercases the
envelope subject (src/main.go line 94) before calling `isJobEmail`
(line 96). -/
def isJobRelated (subject : Str) : Bool := isJobEmail (lowerStr subject)

/-- The keyword set named by the specification: seven keywords, without
`"thanks from"`. -/
def specKeywords : List Str :=
  [kwApplied, kwApplication, kwThanksForApplying, kwFollowUp,
   kwUpdate, kwRecruiting, kwThankYouForApplying]

/-- The keyword set actually hard-coded in `isJobEmail`: the seven
specification keywords plus `"thanks from"`. -/
def codeKeywords : List Str :=
  [kwApplied, kwApplication, kwThanksForApplying, kwThanksFrom,
   kwFollowUp, kwUpdate, kwRecruiting, kwThankYouForApplying]

/-- A subject matched by `"thanks from"` and by no specification keyword. -/
def thanksFromSubject : Str := "Thanks from Acme".data

/-- Claim C3 (counterexample): the subject "Thanks from Acme" is accepted
by the filter although it contains none of the seven keywords the claim
lists — the code also matches the keyword "thanks from". -/
theorem isJobRelated_true_without_spec_keyword :
    isJobRelated thanksFromSubject = true ∧
    ¬ ∃ k ∈ specKeywords, strContains (lowerStr thanksFromSubject) k = true := by
  decide

/-- Claim C3 (amended): `isJobRelated S` is true iff the lowercased `S`
contains at least one keyword of the eight-element set actually used by
the code, which adds "thanks from" to the seven listed by the claim. -/
theorem isJobRelated_iff_contains_code_keyword (S : Str) :
    isJobRelated S = true ↔ ∃ k ∈ codeKeywords, strContains (lowerStr S) k = true := by
  simp only [isJobRelated, isJobEmail, codeKeywords, List.mem_cons, List.not_mem_nil,
    or_false, exists_eq_or_imp, exists_eq_left, Bool.or_eq_true]
  tauto

/-- Media-type literal `"text/plain"` (src/main.go line 212). -/
def mtTextPlain : Str := "text/plain".data

/-- Media-type literal `"text/html"` (src/main.go line 218). -/
def mtTextHtml : Str := "text/html".data

/-- The entity literal `"&nbsp;"` (src/main.go line 236). -/
def nbspEntity : Str := "&nbsp;".data

/-- One MIME part of a message: its parsed media type (`none` when the
Content-Type header is missing or unparsable, in which case the Go loop
skips the part) and its decoded body text. -/
structure Part where
  mediaType : Option Str
  body : Str
deriving DecidableEq

/-- Drop characters up to and including the first `>` — the tail of a
leftmost match of the Go regex `<[^>]*>` (src/main.go line 233). -/
def dropThroughGt : Str → Str
  | [] => []
  | c :: t => if c = '>' then t else dropThroughGt t

/-- `re.ReplaceAllString(html, "")` for `re = <[^>]*>` (src/main.go
lines 233-234), written with a fuel argument to keep the recursion
structural: every step consumes at least one character, so fuel equal to
the length of the string is never exhausted. An unmatched `<` (no later
`>`) matches nothing and is kept verbatim together with the rest. -/
def stripTagsFuel : Nat → Str → Str
  | 0, s => s
  | _ + 1, [] => []
  | fuel + 1, c :: t =>
    if c = '<' then
      if t.contains '>' then stripTagsFuel fuel (dropThroughGt t) else c :: t
    else c :: stripTagsFuel fuel t

/-- Removal of every substring matching `<[^>]*>`, leftmost first. -/
def stripTags (s : Str) : Str := stripTagsFuel s.length s

/-- Go `strings.ReplaceAll(text, "&nbsp;", " ")` (src/main.go line 236):
left-to-right non-overlapping replacement. The counter skips the
remaining five characters of a matched `&nbsp;`. -/
def replaceNbspAux : Nat → Str → Str
  | _, [] => []
  | k + 1, _ :: t => replaceNbspAux k t
  | 0, c :: t =>
    if nbspEntity.isPrefixOf (c :: t) then ' ' :: replaceNbspAux 5 t
    else c :: replaceNbspAux 0 t

/-- Replace each literal `&nbsp;` by a single space. -/
def replaceNbsp (s : Str) : Str := replaceNbspAux 0 s

/-- Whitespace as trimmed by Go `strings.TrimSpace` (ASCII range). -/
def isSpaceChar (c : Char) : Bool :=
  c = ' ' || c = '\t' || c = '\n' || c = '\r' || c = '\x0B' || c = '\x0C'

/-- Go `strings.TrimSpace` (src/main.go line 237). -/
def trimSpace (s : Str) : Str :=
  ((s.dropWhile isSpaceChar).reverse.dropWhile isSpaceChar).reverse

/-- Go `stripHTMLTags` (src/main.go lines 232-238): remove `<[^>]*>`
matches, replace `&nbsp;` by a space, trim surrounding whitespace. -/
def stripHTMLTags (html : Str) : Str :=
  trimSpace (replaceNbsp (stripTags html))

/-- The part loop of Go `getBodyText` (src/main.go lines 182-229), with
the `htmlBody` accumulator explicit: parts without a parsable media type
are skipped; the first `text/plain` part returns its body at once; each
`text/html` part overwrites the remembered HTML body; at the end the
remembered HTML body, if non-empty, is returned through `stripHTMLTags`,
otherwise the empty string. -/
def getBodyTextAux : List Part → Str → Str
  | [], htmlBody => if htmlBody.isEmpty then [] else stripHTMLTags htmlBody
  | p :: rest, htmlBody =>
    match p.mediaType with
    | none => getBodyTextAux rest htmlBody
    | some mt =>
      if mtTextPlain.isPrefixOf mt then p.body
      else if mtTextHtml.isPrefixOf mt then getBodyTextAux rest p.body
      else getBodyTextAux rest htmlBody

/-- Go `getBodyText` (src/main.go lines 162-230), on the message's part
list, starting with an empty remembered HTML body. -/
def getBodyText (parts : List Part) : Str := getBodyTextAux parts []

/-- A part whose media type starts with `"text/plain"`. -/
def isPlainPart (p : Part) : Bool :=
  match p.mediaType with
  | some mt => mtTextPlain.isPrefixOf mt
  | none => false

/-- A part whose media type starts with `"text/html"`. -/
def isHtmlPart (p : Part) : Bool :=
  match p.mediaType with
  | some mt => mtTextHtml.isPrefixOf mt
  | none => false

lemma getBodyTextAux_first_plain (p : Part) (post : List Part)
    (hp : isPlainPart p = true) :
    ∀ (pre : List Part) (acc : Str), (∀ q ∈ pre, isPlainPart q = false) →
      getBodyTextAux (pre ++ p :: post) acc = p.body := by
  intro pre
  induction pre with
  | nil =>
    intro acc _
    cases hmt : p.mediaType with
    | none => simp [isPlainPart, hmt] at hp
    | some mt =>
      simp only [isPlainPart, hmt] at hp
      simp [getBodyTextAux, hmt, hp]
  | cons q rest ih =>
    intro acc hall
    have hq : isPlainPart q = false := hall q (List.mem_cons_self q rest)
    have hrest : ∀ r ∈ rest, isPlainPart r = false :=
      fun r hr => hall r (List.mem_cons_of_mem q hr)
    cases hmt : q.mediaType with
    | none => simpa [getBodyTextAux, hmt] using ih acc hrest
    | some mt =>
      simp only [isPlainPart, hmt] at hq
      by_cases hhtml : mtTextHtml.isPrefixOf mt = true
      · simpa [getBodyTextAux, hmt, hq, hhtml] using ih q.body hrest
      · simpa [getBodyTextAux, hmt, hq, hhtml] using ih acc hrest

/-- Claim C2: when the parts are any prefix with no `text/plain` part,
then a `text/plain` part `p`, then arbitrary further parts, `getBodyText`
returns `p`'s body — the first plain part wins and nothing after it can
change the result. -/
theorem getBodyText_first_plain (pre post : List Part) (p : Part)
    (hpre : ∀ q ∈ pre, isPlainPart q = false) (hp : isPlainPart p = true) :
    getBodyText (pre ++ p :: post) = p.body :=
  getBodyTextAux_first_plain p post hp pre [] hpre

/-- An HTML part placed before the plain part, for the C2 witness. -/
def witnessHtmlPart : Part := Part.mk (some mtTextHtml) "<p>ignored</p>".data

/-- The plain part of the C2 witness. -/
def witnessPlainPart : Part := Part.mk (some mtTextPlain) "plain body".data

/-- A trailing part of the C2 witness, ignored by the short-circuit. -/
def witnessTrailingPart : Part := Part.mk (some mtTextHtml) "<p>later</p>".data

/-- Claim C2 (witness): with an HTML part before and after it, the plain
part's body is returned unchanged. -/
theorem getBodyText_first_plain_witness :
    getBodyText [witnessHtmlPart, witnessPlainPart, witnessTrailingPart] =
      "plain body".data := by
  have h := getBodyText_first_plain [witnessHtmlPart] [witnessTrailingPart]
    witnessPlainPart (by decide) (by decide)
  simpa using h

lemma lastHtmlBody_no_html (post : List Part)
    (hpost : ∀ q ∈ post, isHtmlPart q = false) :
    ∀ acc, (∀ q ∈ post, isPlainPart q = false) →
      getBodyTextAux post acc = (if acc.isEmpty then [] else stripHTMLTags acc) := by
  induction post with
  | nil => intro acc _; rfl
  | cons q rest ih =>
    intro acc hallp
    have hq : isHtmlPart q = false := hpost q (List.mem_cons_self q rest)
    have hqp : isPlainPart q = false := hallp q (List.mem_cons_self q rest)
    have hrest : ∀ r ∈ rest, isHtmlPart r = false :=
      fun r hr => hpost r (List.mem_cons_of_mem q hr)
    have hrestp : ∀ r ∈ rest, isPlainPart r = false :=
      fun r hr => hallp r (List.mem_cons_of_mem q hr)
    have ih2 := (fun acc => ih hrest acc hrestp)
    cases hmt : q.mediaType with
    | none => simpa [getBodyTextAux, hmt] using ih2 acc
    | some mt =>
      simp only [isHtmlPart, hmt] at hq
      simp only [isPlainPart, hmt] at hqp
      simpa [getBodyTextAux, hmt, hqp, hq] using ih2 acc

lemma getBodyTextAux_last_html (h : Part) (post : List Part)
    (hh : isHtmlPart h = true) (hpost : ∀ q ∈ post, isHtmlPart q = false)
    (hpostp : ∀ q ∈ post, isPlainPart q = false) (hhp : isPlainPart h = false) :
    ∀ (pre : List Part) (acc : Str), (∀ q ∈ pre, isPlainPart q = false) →
      getBodyTextAux (pre ++ h :: post) acc =
        (if h.body.isEmpty then [] else stripHTMLTags h.body) := by
  intro pre
  induction pre with
  | nil =>
    intro acc _
    cases hmt : h.mediaType with
    | none => simp [isHtmlPart, hmt] at hh
    | some mt =>
      simp only [isHtmlPart, hmt] at hh
      simp only [isPlainPart, hmt] at hhp
      simp only [List.nil_append, getBodyTextAux, hmt, hhp, hh, if_false, if_true]
      exact lastHtmlBody_no_html post hpost h.body hpostp
  | cons q rest ih =>
    intro acc hall
    have hqp : isPlainPart q = false := hall q (List.mem_cons_self q rest)
    have hrest : ∀ r ∈ rest, isPlainPart r = false :=
      fun r hr => hall r (List.mem_cons_of_mem q hr)
    cases hmt : q.mediaType with
    | none => simpa [getBodyTextAux, hmt] using ih acc hrest
    | some mt =>
      simp only [isPlainPart, hmt] at hqp
      by_cases hhtml : mtTextHtml.isPrefixOf mt = true
      · simpa [getBodyTextAux, hmt, hqp, hhtml] using ih q.body hrest
      · simpa [getBodyTextAux, hmt, hqp, hhtml] using ih acc hrest

lemma stripHTMLTags_nil : stripHTMLTags [] = [] := rfl

lemma getBodyText_last_html_general (pre post : List Part) (h : Part)
    (hnoplain : ∀ q ∈ pre ++ h :: post, isPlainPart q = false)
    (hh : isHtmlPart h = true)
    (hpost : ∀ q ∈ post, isHtmlPart q = false) :
    getBodyText (pre ++ h :: post) = stripHTMLTags h.body := by
  have hpre : ∀ q ∈ pre, isPlainPart q = false :=
    fun q hq => hnoplain q (List.mem_append_left _ hq)
  have hhp : isPlainPart h = false :=
    hnoplain h (List.mem_append_right _ (List.mem_cons_self h post))
  have hpostp : ∀ q ∈ post, isPlainPart q = false :=
    fun q hq => hnoplain q (List.mem_append_right _ (List.mem_cons_of_mem h hq))
  have := getBodyTextAux_last_html h post hh hpost hpostp hhp pre [] hpre
  rw [getBodyText, this]
  cases hb : h.body with
  | nil => simp [stripHTMLTags_nil]
  | cons c t => simp

/-- Claim C6: with no `text/plain` part anywhere and `h` the last
`text/html` part, `getBodyText` falls back to `h`'s text with every
`<[^>]*>` match removed, each literal `&nbsp;` replaced by a space, and
surrounding whitespace trimmed. -/
theorem getBodyText_html_fallback (pre post : List Part) (h : Part)
    (hnoplain : ∀ q ∈ pre ++ h :: post, isPlainPart q = false)
    (hh : isHtmlPart h = true)
    (hpost : ∀ q ∈ post, isHtmlPart q = false) :
    getBodyText (pre ++ h :: post) = trimSpace (replaceNbsp (stripTags h.body)) :=
  getBodyText_last_html_general pre post h hnoplain hh hpost

/-- The HTML body of the specification's concrete example. -/
def helloWorldHtml : Str := "<b>Hello</b>&nbsp;World".data

/-- Claim C6 (witness): a message whose only part is HTML containing
`<b>Hello</b>&nbsp;World` yields `"Hello World"`. -/
theorem getBodyText_html_fallback_witness :
    getBodyText [Part.mk (some mtTextHtml) helloWorldHtml] = "Hello World".data := by
  have h := getBodyText_html_fallback [] [] (Part.mk (some mtTextHtml) helloWorldHtml)
    (by decide) (by decide) (by decide)
  simp only [List.nil_append] at h
  rw [h]
  decide

/-- Claim C9: with no `text/plain` part, an earlier `text/html` part
`h1` and a later `text/html` part `h2` after which no HTML part follows,
the fallback uses `h2`'s text — each HTML part seen overwrites the
previously remembered one. -/
theorem getBodyText_uses_last_html (pre mid post : List Part) (h1 h2 : Part)
    (hnoplain : ∀ q ∈ pre ++ h1 :: (mid ++ h2 :: post), isPlainPart q = false)
    (h1h : isHtmlPart h1 = true) (h2h : isHtmlPart h2 = true)
    (hpost : ∀ q ∈ post, isHtmlPart q = false) :
    getBodyText (pre ++ h1 :: (mid ++ h2 :: post)) = stripHTMLTags h2.body := by
  have hre : pre ++ h1 :: (mid ++ h2 :: post) = (pre ++ h1 :: mid) ++ h2 :: post := by
    simp [List.append_assoc]
  rw [hre] at hnoplain ⊢
  exact getBodyText_last_html_general (pre ++ h1 :: mid) post h2 hnoplain h2h hpost

/-- The first HTML part of the C9 witness. -/
def firstHtmlPart : Part := Part.mk (some mtTextHtml) "First".data

/-- The second HTML part of the C9 witness. -/
def secondHtmlPart : Part := Part.mk (some mtTextHtml) "Second".data

/-- Claim C9 (witness): with two HTML parts and no plain part, the body
of the second (last) HTML part is the one returned. -/
theorem getBodyText_uses_last_html_witness :
    getBodyText [firstHtmlPart, secondHtmlPart] = "Second".data := by
  have h := getBodyText_uses_last_html [] [] [] firstHtmlPart secondHtmlPart
    (by decide) (by decide) (by decide) (by decide)
  simp only [List.nil_append] at h
  rw [h]
  decide

/-- A timestamp, with the fields the CSV layout `2006-01-02 15:04`
renders (seconds and zone do not appear in any output). -/
structure DateTime where
  year : Nat
  month : Nat
  day : Nat
  hour : Nat
  minute : Nat
deriving DecidableEq

/-- The structured record returned by the semantic parser
(`models.Job`; fields per the specification's StructuredRecord). The
code reads only `company` and `position` (src/main.go line 115). -/
structure Job where
  company : Str
  position : Str
  status : Str
  sourceDate : DateTime
  sourceEmail : Str
deriving DecidableEq

/-- `models.FailedJob` as constructed in src/main.go lines 116-122 and
consumed in lines 258-269. -/
structure FailedJob where
  subject : Str
  body : Str
  email : Str
  date : DateTime
  reason : Str
deriving DecidableEq

/-- Go `RawEmail` (src/main.go lines 24-29). -/
structure RawEmail where
  subject : Str
  body : Str
  email : Str
  date : DateTime
deriving DecidableEq

/-- One address of an IMAP envelope (`mailbox@host`, src/main.go
line 157). -/
structure Address where
  mailboxName : Str
  hostName : Str
deriving DecidableEq

/-- The envelope fields the pipeline reads: subject, sender list, date. -/
structure Envelope where
  subject : Str
  froms : List Address
  date : DateTime
deriving DecidableEq

/-- A fetched IMAP message: possibly-absent envelope plus MIME parts. -/
structure ImapMessage where
  envelope : Option Envelope
  parts : List Part
deriving DecidableEq

/-- The semantic-parser capability `parser.ParseEmail subject body email
date` (external package, src/main.go line 113). -/
def ParseFn := Str → Str → Str → DateTime → Job

/-- The failure reason written by the parsing worker (src/main.go
line 121). -/
def emptyLLMOutput : Str := "Empty LLM output".data

/-- Go `getSenderEmail` (src/main.go lines 150-160): first From address
as `mailbox@host`, or empty when the envelope or the list is absent. -/
def getSenderEmail (msg : ImapMessage) : Str :=
  match msg.envelope with
  | none => []
  | some env =>
    match env.froms with
    | [] => []
    | a :: _ => a.mailboxName ++ "@".data ++ a.hostName

/-- The filter stage (the "Parser goroutine", src/main.go lines 89-108):
skip messages without an envelope, lowercase the subject, keep the
message when `isJobEmail` accepts it, and build the `RawEmail` with the
lowercased subject, extracted body and sender. -/
def filterStage (msgs : List ImapMessage) : List RawEmail :=
  msgs.filterMap fun m =>
    match m.envelope with
    | none => none
    | some env =>
      let subject := lowerStr env.subject
      if isJobEmail subject then
        some (RawEmail.mk subject (getBodyText m.parts) (getSenderEmail m) env.date)
      else none

/-- The parsing worker (src/main.go lines 111-128): call the parser on
each record; when both company and position are blank, append a
`FailedJob` with reason "Empty LLM output" and forward nothing,
otherwise forward the job. Result: (jobs forwarded, failures appended),
each in input order. -/
def parseStage (parse : ParseFn) : List RawEmail → List Job × List FailedJob
  | [] => ([], [])
  | r :: rest =>
    let job := parse r.subject r.body r.email r.date
    let p := parseStage parse rest
    if job.company = [] ∧ job.position = [] then
      (p.1, FailedJob.mk r.subject r.body r.email r.date emptyLLMOutput :: p.2)
    else (job :: p.1, p.2)

/-- Decimal digits of a natural number. -/
def natToStr (n : Nat) : Str := (Nat.repr n).data

/-- Zero-pad to two digits (Go layout components `01`, `02`, `15`,
`04`). -/
def pad2 (n : Nat) : Str := if n < 10 then '0' :: natToStr n else natToStr n

/-- Zero-pad to four digits (Go layout component `2006`). -/
def pad4 (n : Nat) : Str :=
  if n < 10 then '0' :: '0' :: '0' :: natToStr n
  else if n < 100 then '0' :: '0' :: natToStr n
  else if n < 1000 then '0' :: natToStr n
  else natToStr n

/-- Go `e.Date.Format("2006-01-02 15:04")` (src/main.go line 264). -/
def formatDateTime (d : DateTime) : Str :=
  pad4 d.year ++ ['-'] ++ pad2 d.month ++ ['-'] ++ pad2 d.day ++ [' '] ++
    pad2 d.hour ++ [':'] ++ pad2 d.minute

/-- Go `strings.ReplaceAll(s, "\"", "'")` (src/main.go lines 259, 261). -/
def replaceQuoteWithApos (s : Str) : Str :=
  s.map fun c => if c = '\"' then '\'' else c

/-- Go `strings.ReplaceAll(s, "\n", " ")` (src/main.go line 260). -/
def replaceNewlineWithSpace (s : Str) : Str :=
  s.map fun c => if c = '\n' then ' ' else c

/-- The header row (src/main.go line 256). -/
def csvHeader : Str := "Date,Email,Subject,Body,Reason\n".data

/-- One CSV row (src/main.go lines 258-270): body gets quote and newline
replacement, subject only quote replacement, email and reason are
written as-is, the date through the `2006-01-02 15:04` layout; all five
fields double-quoted and comma-separated. -/
def csvRow (e : FailedJob) : Str :=
  let safeBody := replaceNewlineWithSpace (replaceQuoteWithApos e.body)
  let safeSubject := replaceQuoteWithApos e.subject
  ['\"'] ++ formatDateTime e.date ++ "\",\"".data ++ e.email ++ "\",\"".data ++
    safeSubject ++ "\",\"".data ++ safeBody ++ "\",\"".data ++ e.reason ++
    "\"\n".data

/-- Go `writeFailuresToCSV` (src/main.go lines 240-274): concatenate the
parser failures with the reconciler failures; on an empty result do no
file output (`none`); otherwise produce the file content, header row
then one row per entry. -/
def writeFailuresToCSV (llmFailures notionFailures : List FailedJob) : Option Str :=
  let all := llmFailures ++ notionFailures
  if all.isEmpty then none
  else some (csvHeader ++ (all.map csvRow).flatten)

/-- The outcome of one run: the sequence of upsert calls issued by the
reconcile loop (src/main.go lines 131-133), the parser-failure list, and
the failure-file content (`none` when no file is written). -/
structure RunResult where
  upserts : List Job
  llmFailures : List FailedJob
  csv : Option Str
deriving DecidableEq

/-- Go `main` from the search onward (src/main.go lines 63-136): when
the id list is empty, return before any stage starts (line 70-72);
otherwise fetch the messages, run the filter and parse stages, upsert
every forwarded job in order, and write the failure CSV from the parser
failures followed by the reconciler failures. `fetch` stands for the
IMAP fetch, `parse` for `parser.ParseEmail`, and `notionFailures` for
the `models.FailedJobs` list the external notion package has accumulated
when the reconcile loop finishes (line 135). -/
def runMain (ids : List Nat) (fetch : List Nat → List ImapMessage)
    (parse : ParseFn) (notionFailures : List FailedJob) : RunResult :=
  if ids.length = 0 then RunResult.mk [] [] none
  else
    let msgs := fetch ids
    let raws := filterStage msgs
    let p := parseStage parse raws
    RunResult.mk p.1 p.2 (writeFailuresToCSV p.2 notionFailures)

lemma parseStage_fst (parse : ParseFn) (raws : List RawEmail) :
    (parseStage parse raws).1 = raws.filterMap (fun r =>
      let j := parse r.subject r.body r.email r.date
      if j.company = [] ∧ j.position = [] then none else some j) := by
  induction raws with
  | nil => rfl
  | cons r rest ih =>
    by_cases h : (parse r.subject r.body r.email r.date).company = [] ∧
        (parse r.subject r.body r.email r.date).position = []
    · simp [parseStage, List.filterMap_cons, h, ih]
    · simp [parseStage, List.filterMap_cons, h, ih]

lemma parseStage_snd (parse : ParseFn) (raws : List RawEmail) :
    (parseStage parse raws).2 = raws.filterMap (fun r =>
      let j := parse r.subject r.body r.email r.date
      if j.company = [] ∧ j.position = [] then
        some (FailedJob.mk r.subject r.body r.email r.date emptyLLMOutput)
      else none) := by
  induction raws with
  | nil => rfl
  | cons r rest ih =>
    by_cases h : (parse r.subject r.body r.email r.date).company = [] ∧
        (parse r.subject r.body r.email r.date).position = []
    · simp [parseStage, List.filterMap_cons, h, ih]
    · simp [parseStage, List.filterMap_cons, h, ih]

lemma parseStage_length (parse : ParseFn) (raws : List RawEmail) :
    (parseStage parse raws).1.length + (parseStage parse raws).2.length =
      raws.length := by
  induction raws with
  | nil => rfl
  | cons r rest ih =>
    simp only [parseStage]
    by_cases h : (parse r.subject r.body r.email r.date).company = [] ∧
        (parse r.subject r.body r.email r.date).position = []
    · rw [if_pos h]
      simp only [List.length_cons]
      omega
    · rw [if_neg h]
      simp only [List.length_cons]
      omega

/-- A concrete timestamp used by the concrete scenarios below. -/
def sampleDate : DateTime := DateTime.mk 2025 6 1 12 0

/-- A concrete candidate record whose subject passes the filter. -/
def sampleRaw : RawEmail :=
  RawEmail.mk "application update".data "some body".data "a@b.c".data sampleDate

/-- A parser stub returning the empty sentinel for every input. -/
def emptyParse : ParseFn := fun _ _ _ d => Job.mk [] [] [] d []

/-- Claim C1 (counterexample): when the parser returns the empty
sentinel, the parse stage records the reason "Empty LLM output"
(src/main.go line 121), not "empty parser output" as the claim states,
while indeed forwarding nothing. -/
theorem parseStage_reason_is_empty_llm_output :
    (parseStage emptyParse [sampleRaw]).2.map FailedJob.reason = [emptyLLMOutput] ∧
    (parseStage emptyParse [sampleRaw]).1 = [] ∧
    emptyLLMOutput ≠ "empty parser output".data := by
  decide

/-- Claim C1 (amended): every record entering the parse stage ends in
exactly one outcome — when the parse result has blank company and blank
position, exactly one FailureEntry with reason "Empty LLM output" and no
forwarded job; otherwise the job is forwarded and no FailureEntry is
appended; forwarded jobs plus failures account for every input record. -/
theorem parseStage_exactly_one_outcome (parse : ParseFn) (raws : List RawEmail) :
    (parseStage parse raws).1 = raws.filterMap (fun r =>
      let j := parse r.subject r.body r.email r.date
      if j.company = [] ∧ j.position = [] then none else some j) ∧
    (parseStage parse raws).2 = raws.filterMap (fun r =>
      let j := parse r.subject r.body r.email r.date
      if j.company = [] ∧ j.position = [] then
        some (FailedJob.mk r.subject r.body r.email r.date emptyLLMOutput)
      else none) ∧
    (parseStage parse raws).1.length + (parseStage parse raws).2.length =
      raws.length :=
  ⟨parseStage_fst parse raws, parseStage_snd parse raws,
    parseStage_length parse raws⟩

/-- Claim C4: with zero message ids the run returns at once — no
upserts, no parser failures, and no failure file, whatever the fetch,
the parser and the reconciler would have done. -/
theorem runMain_zero_messages (fetch : List Nat → List ImapMessage)
    (parse : ParseFn) (notionFailures : List FailedJob) :
    runMain [] fetch parse notionFailures = RunResult.mk [] [] none := rfl

/-- Which job, if any, a fetched message contributes to the upsert
sequence: none when the envelope is missing, when the lowercased subject
fails the filter, or when the parse result is the empty sentinel. -/
def upsertedJobOf (parse : ParseFn) (m : ImapMessage) : Option Job :=
  match m.envelope with
  | none => none
  | some env =>
    let subject := lowerStr env.subject
    if isJobEmail subject then
      let j := parse subject (getBodyText m.parts) (getSenderEmail m) env.date
      if j.company = [] ∧ j.position = [] then none else some j
    else none

/-- Claim C5: the sequence of upsert calls of a run is the
order-preserving `filterMap` of the fetched messages — exactly the
mailbox order restricted to messages that pass the subject filter and
parse to a non-empty record (end-to-end FIFO). -/
theorem runMain_upserts_fifo (i : Nat) (ids : List Nat)
    (fetch : List Nat → List ImapMessage) (parse : ParseFn)
    (notionFailures : List FailedJob) :
    (runMain (i :: ids) fetch parse notionFailures).upserts =
      (fetch (i :: ids)).filterMap (upsertedJobOf parse) := by
  have hlen : ¬ (i :: ids).length = 0 := by simp
  simp only [runMain, hlen, if_false]
  rw [parseStage_fst, filterStage, List.filterMap_filterMap]
  congr 1
  funext m
  cases hmt : m.envelope with
  | none => simp [upsertedJobOf, hmt]
  | some env =>
    by_cases hjob : isJobEmail (lowerStr env.subject) = true
    · simp [upsertedJobOf, hmt, hjob]
    · simp [upsertedJobOf, hmt, hjob]

/-- The lowercased subject a message contributes to the candidate
stream, when it passes the filter. -/
def lowerSubjectOf (m : ImapMessage) : Option Str :=
  match m.envelope with
  | none => none
  | some env =>
    if isJobEmail (lowerStr env.subject) then some (lowerStr env.subject)
    else none

/-- The lowercased subject a message contributes to the failure list,
when it passes the filter and parses to the empty sentinel. -/
def failedSubjectOf (parse : ParseFn) (m : ImapMessage) : Option Str :=
  match m.envelope with
  | none => none
  | some env =>
    let subject := lowerStr env.subject
    if isJobEmail subject then
      let j := parse subject (getBodyText m.parts) (getSenderEmail m) env.date
      if j.company = [] ∧ j.position = [] then some subject else none
    else none

/-- Claim C8: every candidate record carries the envelope subject
converted to lower case — so the parser is invoked on the lowercased
subject — and every failure entry of the parse stage records that same
lowercased subject, never the original-case one. -/
theorem pipeline_subjects_lowercased (msgs : List ImapMessage) (parse : ParseFn) :
    (filterStage msgs).map RawEmail.subject = msgs.filterMap lowerSubjectOf ∧
    ((parseStage parse (filterStage msgs)).2).map FailedJob.subject =
      msgs.filterMap (failedSubjectOf parse) := by
  constructor
  · rw [filterStage, List.map_filterMap]
    congr 1
    funext m
    cases hmt : m.envelope with
    | none => simp [lowerSubjectOf, hmt]
    | some env =>
      by_cases hjob : isJobEmail (lowerStr env.subject) = true
      · simp [lowerSubjectOf, hmt, hjob]
      · simp [lowerSubjectOf, hmt, hjob]
  · rw [parseStage_snd, filterStage, List.filterMap_filterMap,
      List.map_filterMap]
    congr 1
    funext m
    cases hmt : m.envelope with
    | none => simp [failedSubjectOf, hmt]
    | some env =>
      by_cases hjob : isJobEmail (lowerStr env.subject) = true
      · by_cases hempty :
            (parse (lowerStr env.subject) (getBodyText m.parts)
              (getSenderEmail m) env.date).company = [] ∧
            (parse (lowerStr env.subject) (getBodyText m.parts)
              (getSenderEmail m) env.date).position = []
        · simp [failedSubjectOf, hmt, hjob, hempty]
        · simp [failedSubjectOf, hmt, hjob, hempty]
      · simp [failedSubjectOf, hmt, hjob]

/-- Modelled from the claim's words (claim C7): a field value with
internal double quotes replaced by single quotes and embedded newlines
replaced by spaces. -/
def specSanitizedField (s : Str) : Str :=
  replaceNewlineWithSpace (replaceQuoteWithApos s)

/-- Modelled from the claim's words (claim C7): a row in which every one
of the five field values is sanitized. -/
def specCsvRow (e : FailedJob) : Str :=
  ['\"'] ++ formatDateTime e.date ++ "\",\"".data ++
    specSanitizedField e.email ++ "\",\"".data ++
    specSanitizedField e.subject ++ "\",\"".data ++
    specSanitizedField e.body ++ "\",\"".data ++
    specSanitizedField e.reason ++ "\"\n".data

/-- A failure entry whose subject contains an embedded newline. -/
def newlineSubjectEntry : FailedJob :=
  FailedJob.mk "line1\nline2".data "some body".data "a@b.c".data sampleDate
    emptyLLMOutput

/-- Claim C7 (counterexample): the writer does not sanitize every field
value — a newline embedded in the subject survives into the row, so the
produced content differs from the claim's fully-sanitized content. -/
theorem csvRow_not_fully_sanitized :
    writeFailuresToCSV [newlineSubjectEntry] [] =
      some (csvHeader ++ csvRow newlineSubjectEntry) ∧
    writeFailuresToCSV [newlineSubjectEntry] [] ≠
      some (csvHeader ++ specCsvRow newlineSubjectEntry) := by
  decide

/-- Claim C7 (amended): for a non-empty combined failure list the writer
produces the header row followed by exactly one double-quoted,
comma-delimited row per entry, in which the body has double quotes
replaced by single quotes and newlines by spaces, the subject has double
quotes replaced by single quotes with newlines kept, the email and
reason fields are written verbatim, and the timestamp is rendered as
YYYY-MM-DD HH:MM; for an empty list nothing is written. -/
theorem writeFailuresToCSV_format (l1 l2 : List FailedJob) :
    writeFailuresToCSV l1 l2 =
      (if l1 ++ l2 = [] then none
       else some (csvHeader ++ ((l1 ++ l2).map csvRow).flatten)) ∧
    ∀ e : FailedJob, csvRow e =
      ['\"'] ++ formatDateTime e.date ++ "\",\"".data ++
        e.email ++ "\",\"".data ++
        replaceQuoteWithApos e.subject ++ "\",\"".data ++
        replaceNewlineWithSpace (replaceQuoteWithApos e.body) ++ "\",\"".data ++
        e.reason ++ "\"\n".data := by
  constructor
  · unfold writeFailuresToCSV
    by_cases h : l1 ++ l2 = []
    · simp [h]
    · simp [h, List.isEmpty_iff]
  · intro e
    rfl

/-- Claim C10: the failure file lists every parse-stage failure row
before every reconcile-stage failure row — the writer concatenates the
parser-failure list with the reconciler-failure list, in that order,
before rendering rows. -/
theorem writeFailuresToCSV_llm_rows_first (l1 l2 : List FailedJob) :
    writeFailuresToCSV l1 l2 =
      (if (l1 ++ l2).isEmpty then none
       else some (csvHeader ++
         ((l1.map csvRow).flatten ++ (l2.map csvRow).flatten))) := by
  unfold writeFailuresToCSV
  simp only [List.map_append, List.flatten_append]

end AutoJobTracker
